import Mathlib

/-!
# Verification of the leetcode-accountability core

Shallow embedding of the deduplication & aggregation engine
(`submission_service.py`), the entity layer (`entities.py`) and the
accountability decision logic (`accountability_service.py`), together with
theorems settling the specification claims about them.

Timestamps are Unix seconds modelled as `Int`; Python `datetime` subtraction
and `timedelta(hours=h)` comparisons become integer arithmetic on seconds
(`h` hours = `h * 3600` seconds).  Monetary amounts (Python `float`) are
modelled as exact rationals `Rat`.
-/

namespace LeetcodeAccountability

/-- A raw accepted-submission event as returned by the submission source
(`SubmissionWithDetails` in `submission_service.py`): title slug is the stable
per-problem key, `timestamp` is Unix seconds, `difficulty` is present only
when details were requested. -/
structure Event where
  titleSlug : String
  timestamp : Int
  title : String
  difficulty : Option String
deriving DecidableEq, Repr

/-- The running state `question_submissions` of
`get_unique_questions_between_dates`: for each title slug, the list of
timestamps of the submissions ACCEPTED as unique so far (appended in order;
the Python code reads only its last element `[-1]`). -/
def QState := String → List Int

/-- The empty `question_submissions` dictionary: no slug has been seen. -/
def initState : QState := fun _ => []

/-- `question_submissions[slug].append(t)` (also creates the entry `[t]` when
the slug is new, since a missing key reads as `[]` here). -/
def pushTime (qs : QState) (slug : String) (t : Int) : QState :=
  fun s => if s = slug then qs slug ++ [t] else qs s

/-- The chronological walk of `get_unique_questions_between_dates`
(`submission_service.py` lines 116-138), after the input has been sorted by
timestamp.  `gapSec` is `min_hours_between_submissions` converted to seconds.
An event whose slug is unseen is accepted and its timestamp recorded; an event
whose slug was seen is accepted iff its timestamp minus the LAST ACCEPTED
timestamp of that slug is at least `gapSec` (inclusive), and only then is the
timestamp list for the slug extended. -/
def dedupWalk (gapSec : Int) : List Event → QState → List Event
  | [], _ => []
  | e :: rest, qs =>
    if qs e.titleSlug = [] then
      e :: dedupWalk gapSec rest (pushTime qs e.titleSlug e.timestamp)
    else
      if e.timestamp - (qs e.titleSlug).getLastD 0 ≥ gapSec then
        e :: dedupWalk gapSec rest (pushTime qs e.titleSlug e.timestamp)
      else
        dedupWalk gapSec rest qs

/-- Stable sort of the events by timestamp, modelling
`submissions.sort(key=lambda x: int(x["timestamp"]))`.  Python's `list.sort`
is stable, and a stable sort by a key is a unique function of its input;
`List.insertionSort` with the non-strict key comparison is that function. -/
def sortByTimestamp (evs : List Event) : List Event :=
  List.insertionSort (fun a b => a.timestamp ≤ b.timestamp) evs

/-- `get_unique_questions_between_dates` restricted to its pure core: sort the
(window-filtered) events chronologically, then run the dedup walk with an
empty `question_submissions` dictionary.  `gapHours` is the
`min_hours_between_submissions` argument (default 24 in the source). -/
def getUniqueQuestions (gapHours : Int) (evs : List Event) : List Event :=
  dedupWalk (gapHours * 3600) (sortByTimestamp evs) initState

/-- Modelled from the spec: the per-problem-id watermark walk of spec §4.1
step 5, over the timestamps of one problem id.  The watermark is the
timestamp of the most recently ACCEPTED unique solve of that id (`none` while
the id has never been seen); an event is accepted iff
`event.timestamp - watermark >= minGapHours` (in seconds, inclusive), and the
watermark advances only on acceptance. -/
def specWalk (gapSec : Int) : Option Int → List Int → List Int
  | _, [] => []
  | none, t :: ts => t :: specWalk gapSec (some t) ts
  | some w, t :: ts =>
    if t - w ≥ gapSec then t :: specWalk gapSec (some t) ts
    else specWalk gapSec (some w) ts

/-- Bool predicate selecting the events of one problem id. -/
def hasSlug (s : String) (e : Event) : Bool := e.titleSlug == s

/-- `entities.Submission`: one unique solve, as stored in a
`UserSubmissions` record.  `submission_time` is Unix seconds. -/
structure Submission where
  name : String
  submission_time : Int
  difficulty : String
  url : String
deriving DecidableEq, Repr

/-- `entities.UserSubmissions`: the per-user record holding one ordered list
of unique solves per difficulty tier. -/
structure UserSubmissions where
  username : String
  easy_submissions : List Submission
  medium_submissions : List Submission
  hard_submissions : List Submission
deriving DecidableEq, Repr

/-- `UserSubmissions.total_questions`: computed property, the sum of the three
list lengths. -/
def UserSubmissions.total_questions (r : UserSubmissions) : Nat :=
  r.easy_submissions.length + r.medium_submissions.length
    + r.hard_submissions.length

/-- `UserSubmissions.easy_count`. -/
def UserSubmissions.easy_count (r : UserSubmissions) : Nat :=
  r.easy_submissions.length

/-- `UserSubmissions.medium_count`. -/
def UserSubmissions.medium_count (r : UserSubmissions) : Nat :=
  r.medium_submissions.length

/-- `UserSubmissions.hard_count`. -/
def UserSubmissions.hard_count (r : UserSubmissions) : Nat :=
  r.hard_submissions.length

/-- `UserSubmissions.add_submission`: append to the list matching the
submission's difficulty (`Difficulty.EASY.value = "Easy"`, etc.); a submission
matching no tier is appended to no list. -/
def UserSubmissions.add_submission (r : UserSubmissions) (s : Submission) :
    UserSubmissions :=
  if s.difficulty = "Easy" then
    { r with easy_submissions := r.easy_submissions ++ [s] }
  else if s.difficulty = "Medium" then
    { r with medium_submissions := r.medium_submissions ++ [s] }
  else if s.difficulty = "Hard" then
    { r with hard_submissions := r.hard_submissions ++ [s] }
  else r

/-- The aggregation loop of `get_user_detailed_submissions_by_date_range`:
fold `add_submission` over the unique questions, starting from an empty
record for the user. -/
def UserSubmissions.fromList (username : String) (ss : List Submission) :
    UserSubmissions :=
  ss.foldl UserSubmissions.add_submission ⟨username, [], [], []⟩

/-- `entities.UserStats`: the counter-based statistics record (declared in the
source and imported by the submission service, but never instantiated by the
pipeline). -/
structure UserStats where
  username : String
  total_questions : Int
  easy_count : Int
  medium_count : Int
  hard_count : Int
deriving DecidableEq, Repr

/-- `UserStats.add_question`: always increment `total_questions`, and
additionally the counter of the matching tier, if any. -/
def UserStats.add_question (st : UserStats) (difficulty : String) : UserStats :=
  let st1 := { st with total_questions := st.total_questions + 1 }
  if difficulty = "Easy" then { st1 with easy_count := st1.easy_count + 1 }
  else if difficulty = "Medium" then
    { st1 with medium_count := st1.medium_count + 1 }
  else if difficulty = "Hard" then
    { st1 with hard_count := st1.hard_count + 1 }
  else st1

/-- `entities.User`. -/
structure User where
  name : String
  leetcode_id : String
  splitwise_id : Option Int
  splitwise_group_id : Option Int
  email_address : Option String
  min_questions : Int
  is_active : Bool
deriving DecidableEq, Repr

/-- Python truthiness of `user.splitwise_id` (type `int | None`): the guard
`if not user.splitwise_id` treats both `None` and `0` as falsy. -/
def pyTruthy : Option Int → Bool
  | none => false
  | some n => n != 0

/-- `splitwise_client.UserShare`.  `user_id` is `Option Int` because the code
forwards `splitwise_id` values unchecked. -/
structure UserShare where
  user_id : Option Int
  paid_share : Rat
  owed_share : Rat
deriving DecidableEq, Repr

/-- `splitwise_client.SplitwiseExpenseData`, restricted to the fields the
decision logic computes; the free-text `description`, `details` and `date`
strings and the constant category/currency/repeat fields are
presentation-only and elided. -/
structure SplitwiseExpenseData where
  cost : Rat
  group_id : Option Int
  users : List UserShare
deriving DecidableEq, Repr

/-- Failure of the submission source while processing one user (transport or
data-shape errors raised inside `get_submissions_between_dates`). -/
inductive SourceError where
  | sourceUnavailable
  | sourceDataMalformed
deriving DecidableEq, Repr

/-- The terminal state a user reaches inside one `hold_accountable` loop
iteration: goal met (skip), no billing identity (skip), or charged via a
ledger call with the given expense. -/
inductive Outcome where
  | goalMet
  | noBillingIdentity
  | charged (expense : SplitwiseExpenseData)
deriving DecidableEq, Repr

/-- `num_missed_questions = user.min_questions - user_submissions.total_questions`
(`accountability_service.py` line 50), an unclamped integer. -/
def numMissedQuestions (u : User) (subs : UserSubmissions) : Int :=
  u.min_questions - (subs.total_questions : Int)

/-- Modelled from the spec: `shortfall = max(0, quota - total_questions)`;
the code computes the unclamped difference and charges only when it is
positive, so this clamp is the charged shortfall. -/
def shortfall (quota total : Int) : Int := max 0 (quota - total)

/-- `other_users`: every user of the run except (field-equal copies of) the
current one (`accountability_service.py` lines 92-94). -/
def peersOf (allUsers : List User) (u : User) : List User :=
  allUsers.filter (fun o => o != u)

/-- The expense built for a shortfall user (`accountability_service.py` lines
64-102): total cost `num_missed * cost_per_question`; the shortfall user owes
the full cost and pays nothing; each peer pays `cost / len(other_users)` and
owes nothing.  When there are no peers the map contributes no shares and the
division is never evaluated, exactly as the Python loop body never runs. -/
def chargeExpense (cpq : Rat) (allUsers : List User) (u : User)
    (subs : UserSubmissions) : SplitwiseExpenseData :=
  let cost : Rat := (numMissedQuestions u subs : Rat) * cpq
  let others := peersOf allUsers u
  { cost := cost
    group_id := u.splitwise_group_id
    users := ⟨u.splitwise_id, 0, cost⟩ ::
      others.map (fun o => ⟨o.splitwise_id, cost / (others.length : Rat), 0⟩) }

/-- The decision steps of one `hold_accountable` loop iteration
(`accountability_service.py` lines 50-102): skip when the goal is met, skip
when `splitwise_id` is falsy, otherwise build and file the expense. -/
def decideUser (cpq : Rat) (allUsers : List User) (u : User)
    (subs : UserSubmissions) : Outcome :=
  if numMissedQuestions u subs ≤ 0 then .goalMet
  else if pyTruthy u.splitwise_id = false then .noBillingIdentity
  else .charged (chargeExpense cpq allUsers u subs)

/-- The ledger calls (`splitwise_client.create_expense`) made for one
outcome: exactly one for a charge, none for either skip. -/
def ledgerCalls : Outcome → List SplitwiseExpenseData
  | .charged e => [e]
  | _ => []

/-- The `hold_accountable` loop over the remaining users.  `fetch` abstracts
`get_user_detailed_submissions_by_date_range` for the fixed date window; a
raised exception is an `Except.error`, which propagates out of the whole loop
exactly as an uncaught Python exception would.  `recs` accumulates
`all_user_submissions` (every fetched record is appended before the decision
steps run); `exps` accumulates the ledger calls. -/
def processUsers (fetch : String → Except SourceError UserSubmissions)
    (cpq : Rat) (allUsers : List User) :
    List User → List UserSubmissions → List SplitwiseExpenseData →
      Except SourceError (List UserSubmissions × List SplitwiseExpenseData)
  | [], recs, exps => .ok (recs, exps)
  | u :: rest, recs, exps =>
    match fetch u.leetcode_id with
    | .error e => .error e
    | .ok subs =>
      processUsers fetch cpq allUsers rest (recs ++ [subs])
        (exps ++ ledgerCalls (decideUser cpq allUsers u subs))

/-- `CodingAccountabilityService.hold_accountable`: run the loop over
`self.users`, starting from empty accumulators. -/
def holdAccountable (fetch : String → Except SourceError UserSubmissions)
    (cpq : Rat) (users : List User) :
    Except SourceError (List UserSubmissions × List SplitwiseExpenseData) :=
  processUsers fetch cpq users users [] []

/-- Concrete sample data used by the witnesses and counterexamples below. -/
def evA : Event := ⟨"two-sum", 0, "Two Sum", none⟩

/-- A second event for the same problem 5 seconds later. -/
def evB : Event := ⟨"two-sum", 5, "Two Sum", none⟩

/-- A repeat of `evA`'s problem exactly 24 hours later. -/
def evC : Event := ⟨"two-sum", 86400, "Two Sum", none⟩

/-- An event for a different problem. -/
def evD : Event := ⟨"add-two-numbers", 10, "Add Two Numbers", none⟩

/-- The empty record for a user. -/
def emptyRecord (name : String) : UserSubmissions := ⟨name, [], [], []⟩

/-- Sample user whose fetch will fail. -/
def aliceUser : User := ⟨"Alice", "alice", some 1, some 9, none, 3, true⟩

/-- Sample user whose fetch succeeds. -/
def bobUser : User := ⟨"Bob", "bob", some 2, some 9, none, 3, true⟩

/-- Sample user for the solo-run counterexample. -/
def carolUser : User := ⟨"Carol", "carol", some 7, some 9, none, 3, true⟩

/-- A fetch function for which alice's pipeline raises and every other user's
pipeline returns an empty record. -/
def failingFetch : String → Except SourceError UserSubmissions :=
  fun name =>
    if name = "alice" then .error .sourceUnavailable
    else .ok (emptyRecord name)

/-- A submission whose difficulty matches no tier. -/
def sub0 : Submission := ⟨"p", 0, "Unknown", "url"⟩

/-- An Easy submission. -/
def subEasy : Submission := ⟨"Two Sum", 0, "Easy", "url"⟩

/-- A Hard submission. -/
def subHard : Submission := ⟨"Word Ladder", 10, "Hard", "url"⟩

/-- A zeroed `UserStats` record. -/
def st0 : UserStats := ⟨"u", 0, 0, 0, 0⟩

/-- Sample user whose `splitwise_id` is the integer 0. -/
def daveUser : User := ⟨"Dave", "dave", some 0, some 9, none, 3, true⟩

theorem pushTime_self (qs : QState) (slug : String) (t : Int) :
    pushTime qs slug t slug = qs slug ++ [t] := by
  simp [pushTime]

theorem pushTime_other (qs : QState) (slug : String) (t : Int) (s : String)
    (h : ¬s = slug) : pushTime qs slug t s = qs s := by
  simp [pushTime, h]

theorem hasSlug_eq_true (s : String) (e : Event) :
    hasSlug s e = true ↔ e.titleSlug = s := by
  simp [hasSlug]

theorem specWalk_none (g t : Int) (ts : List Int) :
    specWalk g none (t :: ts) = t :: specWalk g (some t) ts := rfl

theorem specWalk_some (g w t : Int) (ts : List Int) :
    specWalk g (some w) (t :: ts)
      = if t - w ≥ g then t :: specWalk g (some t) ts
        else specWalk g (some w) ts := rfl

/-- The dedup walk treats distinct problem ids independently: projecting its
output onto one slug `s` yields exactly the spec's watermark walk over that
slug's timestamps, the initial watermark being the last accepted timestamp
already stored for `s`. -/
theorem dedupWalk_filter (gapSec : Int) (l : List Event) (qs : QState) (s : String) :
    ((dedupWalk gapSec l qs).filter (hasSlug s)).map Event.timestamp
      = specWalk gapSec ((qs s).getLast?)
          ((l.filter (hasSlug s)).map Event.timestamp) := by
  induction l generalizing qs with
  | nil => simp [dedupWalk, specWalk]
  | cons e rest ih =>
    by_cases hs : e.titleSlug = s
    · subst hs
      have hfe : hasSlug e.titleSlug e = true := by simp [hasSlug]
      by_cases hempty : qs e.titleSlug = []
      · rw [dedupWalk, if_pos hempty, List.filter_cons_of_pos hfe,
          List.filter_cons_of_pos hfe, List.map_cons, List.map_cons, hempty]
        have h3 : (pushTime qs e.titleSlug e.timestamp) e.titleSlug
            = [e.timestamp] := by rw [pushTime_self, hempty]; rfl
        rw [show ([] : List Int).getLast? = none from rfl, specWalk_none, ih, h3]
        rfl
      · have hlast : (qs e.titleSlug).getLast?
            = some ((qs e.titleSlug).getLastD 0) := by
          rw [List.getLastD_eq_getLast?]
          cases h : (qs e.titleSlug).getLast? with
          | none => exact absurd (List.getLast?_eq_none_iff.mp h) hempty
          | some w => rfl
        rw [dedupWalk, if_neg hempty, List.filter_cons_of_pos hfe, List.map_cons,
          hlast, specWalk_some]
        by_cases hacc : e.timestamp - (qs e.titleSlug).getLastD 0 ≥ gapSec
        · rw [if_pos hacc, if_pos hacc, List.filter_cons_of_pos hfe, List.map_cons,
            ih]
          have h3 : (pushTime qs e.titleSlug e.timestamp) e.titleSlug
              = qs e.titleSlug ++ [e.timestamp] := pushTime_self ..
          rw [h3, List.getLast?_concat]
        · rw [if_neg hacc, if_neg hacc, ih, hlast]
    · have hfe : ¬hasSlug s e = true := by simp [hasSlug, hs]
      have hother : ∀ t, (pushTime qs e.titleSlug t) s = qs s := fun t =>
        pushTime_other qs e.titleSlug t s (fun h => hs h.symm)
      rw [List.filter_cons_of_neg hfe]
      by_cases hempty : qs e.titleSlug = []
      · rw [dedupWalk, if_pos hempty, List.filter_cons_of_neg hfe, ih, hother]
      · rw [dedupWalk, if_neg hempty]
        by_cases hacc : e.timestamp - (qs e.titleSlug).getLastD 0 ≥ gapSec
        · rw [if_pos hacc, List.filter_cons_of_neg hfe, ih, hother]
        · rw [if_neg hacc, ih]

/-- On a chronologically sorted timestamp list, every timestamp accepted by
the watermark walk started at watermark `w` is at least `w + g`, and the
accepted timestamps are pairwise at least `g` apart. -/
theorem specWalk_some_ge (g : Int) (hg : 0 ≤ g) :
    ∀ ts : List Int, ts.Pairwise (· ≤ ·) → ∀ w : Int,
      (∀ x ∈ specWalk g (some w) ts, w + g ≤ x)
      ∧ (specWalk g (some w) ts).Pairwise (fun a b => a + g ≤ b) := by
  intro ts
  induction ts with
  | nil =>
    intro _ w
    refine ⟨?_, List.Pairwise.nil⟩
    intro x hx
    exact absurd hx (List.not_mem_nil x)
  | cons t ts ih =>
    intro hsorted w
    have hsorted' : ts.Pairwise (· ≤ ·) := (List.pairwise_cons.mp hsorted).2
    rw [specWalk_some]
    by_cases hacc : t - w ≥ g
    · rw [if_pos hacc]
      obtain ⟨ihge, ihpw⟩ := ih hsorted' t
      constructor
      · intro x hx
        rcases List.mem_cons.mp hx with h | h
        · subst h; linarith
        · have := ihge x h; linarith
      · exact List.pairwise_cons.mpr ⟨ihge, ihpw⟩
    · rw [if_neg hacc]
      exact ih hsorted' w

/-- Pairwise gap for the watermark walk started with no watermark. -/
theorem specWalk_none_pairwise (g : Int) (hg : 0 ≤ g) (ts : List Int)
    (hsorted : ts.Pairwise (· ≤ ·)) :
    (specWalk g none ts).Pairwise (fun a b => a + g ≤ b) := by
  cases ts with
  | nil => exact List.Pairwise.nil
  | cons t ts =>
    rw [specWalk_none]
    obtain ⟨hge, hpw⟩ := specWalk_some_ge g hg ts (List.pairwise_cons.mp hsorted).2 t
    exact List.pairwise_cons.mpr ⟨hge, hpw⟩

/-- A nonempty list's `getLastD` is one of its elements. -/
theorem getLastD_mem (l : List Int) (h : l ≠ []) (d : Int) : l.getLastD d ∈ l := by
  rw [List.getLastD_eq_getLast?, List.getLast?_eq_getLast l h]
  simp [List.getLast_mem h]

/-- With gap `0`, the walk accepts every event of a chronologically sorted
list: the comparison `time_diff >= timedelta(hours=0)` always holds because
each event's timestamp is at least every previously accepted timestamp. -/
theorem dedupWalk_zero (l : List Event) (qs : QState)
    (hsorted : l.Pairwise (fun a b => a.timestamp ≤ b.timestamp))
    (hinv : ∀ s, ∀ t ∈ qs s, ∀ e ∈ l, t ≤ e.timestamp) :
    dedupWalk 0 l qs = l := by
  induction l generalizing qs with
  | nil => rfl
  | cons e rest ih =>
    obtain ⟨hhead, htail⟩ := List.pairwise_cons.mp hsorted
    have hinv' : ∀ s, ∀ t ∈ (pushTime qs e.titleSlug e.timestamp) s,
        ∀ x ∈ rest, t ≤ x.timestamp := by
      intro s t ht x hx
      by_cases hse : s = e.titleSlug
      · subst hse
        rw [pushTime_self] at ht
        rcases List.mem_append.mp ht with h | h
        · exact hinv e.titleSlug t h x (List.mem_cons_of_mem e hx)
        · rw [List.mem_singleton.mp h]; exact hhead x hx
      · rw [pushTime_other qs e.titleSlug e.timestamp s hse] at ht
        exact hinv s t ht x (List.mem_cons_of_mem e hx)
    by_cases hempty : qs e.titleSlug = []
    · rw [dedupWalk, if_pos hempty, ih (pushTime qs e.titleSlug e.timestamp) htail hinv']
    · have hlastmem : (qs e.titleSlug).getLastD 0 ∈ qs e.titleSlug :=
        getLastD_mem _ hempty 0
      have hle : (qs e.titleSlug).getLastD 0 ≤ e.timestamp :=
        hinv e.titleSlug _ hlastmem e (List.mem_cons_self e rest)
      have hacc : e.timestamp - (qs e.titleSlug).getLastD 0 ≥ (0 : Int) := by linarith
      rw [dedupWalk, if_neg hempty, if_pos hacc,
        ih (pushTime qs e.titleSlug e.timestamp) htail hinv']

/-- The stable chronological sort really sorts by timestamp. -/
theorem sortByTimestamp_sorted (evs : List Event) :
    (sortByTimestamp evs).Pairwise (fun a b => a.timestamp ≤ b.timestamp) := by
  haveI : IsTotal Event (fun a b => a.timestamp ≤ b.timestamp) :=
    ⟨fun a b => le_total a.timestamp b.timestamp⟩
  haveI : IsTrans Event (fun a b => a.timestamp ≤ b.timestamp) :=
    ⟨fun a b c hab hbc => le_trans hab hbc⟩
  exact List.sorted_insertionSort (fun a b => a.timestamp ≤ b.timestamp) evs

/-- C1: on a chronologically sorted list of in-window events with a positive
gap, the dedup walk's output projected onto any problem id is exactly the
spec's watermark walk over that id's timestamps: an event whose id was seen
before is accepted iff its timestamp minus the most recently ACCEPTED
timestamp of that id is at least `minGapHours` (inclusive at equality, in
seconds), and a rejected event never advances the watermark. -/
theorem dedup_matches_watermark_spec (gapHours : Int) (_hgap : 0 < gapHours)
    (evs : List Event)
    (_hsorted : evs.Pairwise (fun a b => a.timestamp ≤ b.timestamp))
    (s : String) :
    ((dedupWalk (gapHours * 3600) evs initState).filter (hasSlug s)).map
        Event.timestamp
      = specWalk (gapHours * 3600) none
          ((evs.filter (hasSlug s)).map Event.timestamp) := by
  have h := dedupWalk_filter (gapHours * 3600) evs initState s
  rwa [show (initState s).getLast? = none from rfl] at h

/-- C1 witness: gap 24h, two events for one problem exactly 24 hours apart,
instantiating the theorem (the second event sits on the inclusive boundary
and both are accepted). -/
theorem dedup_matches_watermark_spec_witness :
    ((0 : Int) < 24
        ∧ [evA, evC].Pairwise (fun a b => a.timestamp ≤ b.timestamp))
    ∧ ((dedupWalk (24 * 3600) [evA, evC] initState).filter
          (hasSlug "two-sum")).map Event.timestamp
        = specWalk (24 * 3600) none
            (([evA, evC].filter (hasSlug "two-sum")).map Event.timestamp) :=
  ⟨⟨by decide, by decide⟩,
    dedup_matches_watermark_spec 24 (by decide) [evA, evC] (by decide) "two-sum"⟩

/-- C2 counterexample: with `minGapHours = 0`, a later event carrying an
already-seen problem id is ACCEPTED rather than rejected — `evB` repeats
`evA`'s problem 5 seconds later, yet appears in the output. -/
theorem gapZero_counterexample :
    evB.titleSlug = evA.titleSlug ∧ evB ∈ getUniqueQuestions 0 [evA, evB] := by
  decide

/-- C2 amended: with `minGapHours = 0` the dedup pass degenerates to no
deduplication at all — every event of the chronologically sorted input is
accepted, because `time_diff >= timedelta(hours=0)` always holds on a sorted
list (each event's timestamp is at least the last accepted one). -/
theorem gapZero_accepts_every_event (evs : List Event) :
    getUniqueQuestions 0 evs = sortByTimestamp evs := by
  unfold getUniqueQuestions
  rw [show (0 : Int) * 3600 = 0 from by norm_num]
  refine dedupWalk_zero _ _ (sortByTimestamp_sorted evs) ?_
  intro s t ht
  exact absurd ht (List.not_mem_nil t)

/-- C9: in the dedup pass's output, EVERY pair of accepted unique solves
sharing the same problem id (the username is fixed per call) have timestamps
at least `minGapHours` apart — `List.Pairwise` relates all index pairs, not
merely consecutive ones. -/
theorem uniqueSolves_pairwise_gap (gapHours : Int) (hg : 0 ≤ gapHours)
    (evs : List Event) (s : String) :
    ((getUniqueQuestions gapHours evs).filter (hasSlug s)).Pairwise
      (fun a b => a.timestamp + gapHours * 3600 ≤ b.timestamp) := by
  have hsec : (0 : Int) ≤ gapHours * 3600 := by
    have : (0 : Int) ≤ 3600 := by norm_num
    exact mul_nonneg hg this
  have hproj := dedupWalk_filter (gapHours * 3600) (sortByTimestamp evs)
    initState s
  rw [show (initState s).getLast? = none from rfl] at hproj
  have h2 : ((sortByTimestamp evs).filter (hasSlug s)).Pairwise
      (fun a b => a.timestamp ≤ b.timestamp) :=
    (sortByTimestamp_sorted evs).filter (hasSlug s)
  have hts : (((sortByTimestamp evs).filter (hasSlug s)).map
      Event.timestamp).Pairwise (· ≤ ·) :=
    List.pairwise_map.mpr h2
  have hpw := specWalk_none_pairwise (gapHours * 3600) hsec _ hts
  rw [← hproj] at hpw
  exact List.pairwise_map.mp hpw

/-- C9 witness: gap 24h over a bursty stream for one problem, instantiating
the theorem. -/
theorem uniqueSolves_pairwise_gap_witness :
    (0 : Int) ≤ 24
    ∧ ((getUniqueQuestions 24 [evA, evB, evC]).filter
        (hasSlug "two-sum")).Pairwise
        (fun a b => a.timestamp + 24 * 3600 ≤ b.timestamp) :=
  ⟨by decide, uniqueSolves_pairwise_gap 24 (by decide) [evA, evB, evC] "two-sum"⟩

/-- Adding a tier-resolved submission increments the computed total by one. -/
theorem add_submission_total (r : UserSubmissions) (s : Submission)
    (h : s.difficulty = "Easy" ∨ s.difficulty = "Medium" ∨ s.difficulty = "Hard") :
    (r.add_submission s).total_questions = r.total_questions + 1 := by
  rcases h with h | h | h <;>
    simp [UserSubmissions.add_submission, UserSubmissions.total_questions, h] <;>
    omega

/-- Folding tier-resolved submissions adds their count to the total. -/
theorem foldl_add_submission_total (ss : List Submission) (r : UserSubmissions)
    (h : ∀ s ∈ ss, s.difficulty = "Easy" ∨ s.difficulty = "Medium"
      ∨ s.difficulty = "Hard") :
    (ss.foldl UserSubmissions.add_submission r).total_questions
      = r.total_questions + ss.length := by
  induction ss generalizing r with
  | nil => simp
  | cons s ss ih =>
    rw [List.foldl_cons, ih _ fun x hx => h x (List.mem_cons_of_mem s hx),
      add_submission_total r s (h s (List.mem_cons_self s ss))]
    simp [Nat.add_assoc, Nat.add_comm 1 ss.length]

/-- C3 counterexample: a solve whose difficulty resolves to no tier does NOT
count toward `total_questions` — adding it to an empty record leaves the
total at 0, where the claim predicts 1. -/
theorem unknownDifficulty_counterexample :
    ((emptyRecord "u").add_submission sub0).total_questions = 0 := by decide

/-- C3 amended: a solve whose difficulty resolves to no tier is dropped from
the `UserSubmissions` record entirely — excluded from every per-tier list AND
from `total_questions` (the record is unchanged); only the separate,
never-invoked `UserStats.add_question` counts such a solve toward its total
while leaving every per-tier counter unchanged. -/
theorem unknownDifficulty_dropped (r : UserSubmissions) (s : Submission)
    (st : UserStats)
    (h : s.difficulty ≠ "Easy" ∧ s.difficulty ≠ "Medium"
      ∧ s.difficulty ≠ "Hard") :
    r.add_submission s = r
    ∧ (st.add_question s.difficulty).total_questions = st.total_questions + 1
    ∧ (st.add_question s.difficulty).easy_count = st.easy_count
    ∧ (st.add_question s.difficulty).medium_count = st.medium_count
    ∧ (st.add_question s.difficulty).hard_count = st.hard_count := by
  obtain ⟨h1, h2, h3⟩ := h
  refine ⟨?_, ?_, ?_, ?_, ?_⟩ <;>
    simp [UserSubmissions.add_submission, UserStats.add_question, h1, h2, h3]

/-- C3 witness: the amended theorem instantiated at the unknown-difficulty
submission `sub0` and concrete records. -/
theorem unknownDifficulty_dropped_witness :
    (sub0.difficulty ≠ "Easy" ∧ sub0.difficulty ≠ "Medium"
      ∧ sub0.difficulty ≠ "Hard")
    ∧ ((emptyRecord "u").add_submission sub0 = emptyRecord "u"
        ∧ (st0.add_question sub0.difficulty).total_questions
            = st0.total_questions + 1
        ∧ (st0.add_question sub0.difficulty).easy_count = st0.easy_count
        ∧ (st0.add_question sub0.difficulty).medium_count = st0.medium_count
        ∧ (st0.add_question sub0.difficulty).hard_count = st0.hard_count) :=
  ⟨by decide, unknownDifficulty_dropped (emptyRecord "u") sub0 st0 (by decide)⟩

/-- C8: for every record, `total_questions` equals the sum of the three
per-tier list lengths (it is a computed projection over the stored solve
lists, so it cannot drift out of sync); and whenever every accepted solve of
an aggregation run has a resolved difficulty, the total also equals the
number of solves folded in. -/
theorem total_is_projection (r : UserSubmissions) (username : String)
    (ss : List Submission) :
    r.total_questions = r.easy_count + r.medium_count + r.hard_count
    ∧ ((∀ s ∈ ss, s.difficulty = "Easy" ∨ s.difficulty = "Medium"
          ∨ s.difficulty = "Hard")
        → (UserSubmissions.fromList username ss).total_questions = ss.length) := by
  constructor
  · rfl
  · intro h
    rw [UserSubmissions.fromList, foldl_add_submission_total ss _ h]
    simp [UserSubmissions.total_questions]

/-- C8 witness: the projection identity and the resolved-difficulty count on
a concrete two-solve run. -/
theorem total_is_projection_witness :
    (∀ s ∈ [subEasy, subHard], s.difficulty = "Easy"
      ∨ s.difficulty = "Medium" ∨ s.difficulty = "Hard")
    ∧ (UserSubmissions.fromList "u" [subEasy, subHard]).total_questions
        = [subEasy, subHard].length :=
  ⟨by decide,
    (total_is_projection (emptyRecord "u") "u" [subEasy, subHard]).2 (by decide)⟩

/-- The goal-met skip fires exactly when no questions were missed. -/
theorem decideUser_goalMet_iff (cpq : Rat) (allUsers : List User) (u : User)
    (subs : UserSubmissions) :
    decideUser cpq allUsers u subs = .goalMet
      ↔ numMissedQuestions u subs ≤ 0 := by
  unfold decideUser
  by_cases h1 : numMissedQuestions u subs ≤ 0
  · simp [h1]
  · by_cases h2 : pyTruthy u.splitwise_id = false <;> simp [h1, h2]

/-- The no-billing-identity skip fires exactly when questions were missed and
`splitwise_id` is falsy. -/
theorem decideUser_noBilling_iff (cpq : Rat) (allUsers : List User) (u : User)
    (subs : UserSubmissions) :
    decideUser cpq allUsers u subs = .noBillingIdentity
      ↔ (0 < numMissedQuestions u subs ∧ pyTruthy u.splitwise_id = false) := by
  unfold decideUser
  by_cases h1 : numMissedQuestions u subs ≤ 0
  · simp [h1, not_lt.mpr h1]
  · have h1' : 0 < numMissedQuestions u subs := not_le.mp h1
    by_cases h2 : pyTruthy u.splitwise_id = false <;> simp [h1, h2, h1']

/-- A charge happens exactly when questions were missed and `splitwise_id`
is truthy. -/
theorem decideUser_charged_iff (cpq : Rat) (allUsers : List User) (u : User)
    (subs : UserSubmissions) :
    (∃ e, decideUser cpq allUsers u subs = .charged e)
      ↔ (0 < numMissedQuestions u subs ∧ pyTruthy u.splitwise_id = true) := by
  unfold decideUser
  by_cases h1 : numMissedQuestions u subs ≤ 0
  · simp [h1, not_lt.mpr h1]
  · have h1' : 0 < numMissedQuestions u subs := not_le.mp h1
    by_cases h2 : pyTruthy u.splitwise_id = false
    · simp [h1, h2]
    · have h2' : pyTruthy u.splitwise_id = true := by
        cases h : pyTruthy u.splitwise_id
        · exact absurd h h2
        · rfl
      simp [h1, h2, h1', h2']

/-- Unfolding equation for one `hold_accountable` loop iteration. -/
theorem processUsers_cons (fetch : String → Except SourceError UserSubmissions)
    (cpq : Rat) (allUsers : List User) (u : User) (rest : List User)
    (recs : List UserSubmissions) (exps : List SplitwiseExpenseData) :
    processUsers fetch cpq allUsers (u :: rest) recs exps
      = match fetch u.leetcode_id with
        | .error e => .error e
        | .ok subs => processUsers fetch cpq allUsers rest (recs ++ [subs])
            (exps ++ ledgerCalls (decideUser cpq allUsers u subs)) := rfl

/-- C6 counterexample: the clamped shortfall `max(0, quota - total)` is NOT
strictly decreasing in the total — at quota 5 it is 0 at totals 5 and 6
alike. -/
theorem shortfall_not_strictly_decreasing :
    (5 : Int) < 6 ∧ ¬shortfall 5 6 < shortfall 5 5 := by decide

/-- C6 amended: for a fixed quota the shortfall is non-negative and monotone
non-increasing in `total_questions`, and strictly decreasing only while the
total is below the quota (once the quota is reached it is constantly 0); the
decision logic's goal-met skip fires exactly when it is 0. -/
theorem shortfall_monotone (cpq : Rat) (allUsers : List User) (u : User)
    (subs : UserSubmissions) (q t1 t2 : Int) :
    0 ≤ shortfall q t1
    ∧ (t1 ≤ t2 → shortfall q t2 ≤ shortfall q t1)
    ∧ (t1 < t2 → t1 < q → shortfall q t2 < shortfall q t1)
    ∧ (decideUser cpq allUsers u subs = .goalMet
        ↔ shortfall u.min_questions ((subs.total_questions : Nat) : Int) = 0) := by
  refine ⟨le_max_left 0 _, ?_, ?_, ?_⟩
  · intro hle
    exact max_le_max (le_refl 0) (by omega)
  · intro hlt hq
    have h1 : shortfall q t1 = q - t1 := max_eq_right (by omega)
    rw [h1]
    exact max_lt (by omega) (by omega)
  · rw [decideUser_goalMet_iff]
    unfold shortfall numMissedQuestions
    omega

/-- C6 witness: the amended theorem instantiated at quota 5, totals 3 and 4,
and a concrete user for the goal-met link. -/
theorem shortfall_monotone_witness :
    0 ≤ shortfall 5 3 ∧ shortfall 5 4 ≤ shortfall 5 3
    ∧ shortfall 5 4 < shortfall 5 3
    ∧ (decideUser 10 [] carolUser (emptyRecord "carol") = .goalMet
        ↔ shortfall carolUser.min_questions
            (((emptyRecord "carol").total_questions : Nat) : Int) = 0) := by
  have h := shortfall_monotone 10 [] carolUser (emptyRecord "carol") 5 3 4
  exact ⟨h.1, h.2.1 (by decide), h.2.2.1 (by decide) (by decide), h.2.2.2⟩

/-- C10: a user whose `splitwise_id` is the integer 0 (rather than absent)
with a positive shortfall takes the no-billing-identity skip path — the guard
`if not user.splitwise_id` treats `0` as falsy, so such a user is never
charged. -/
theorem zeroBillingId_skipped (cpq : Rat) (allUsers : List User) (u : User)
    (subs : UserSubmissions) (hid : u.splitwise_id = some 0)
    (hmiss : 0 < numMissedQuestions u subs) :
    decideUser cpq allUsers u subs = .noBillingIdentity := by
  have h1 : ¬numMissedQuestions u subs ≤ 0 := not_le.mpr hmiss
  unfold decideUser
  rw [if_neg h1, hid]
  simp [pyTruthy]

/-- C10 witness: Dave has `splitwise_id = 0` and misses 3 questions, and is
skipped rather than charged. -/
theorem zeroBillingId_skipped_witness :
    (daveUser.splitwise_id = some 0
      ∧ 0 < numMissedQuestions daveUser (emptyRecord "dave"))
    ∧ decideUser 10 [daveUser] daveUser (emptyRecord "dave")
        = .noBillingIdentity :=
  ⟨⟨by decide, by decide⟩,
    zeroBillingId_skipped 10 [daveUser] daveUser (emptyRecord "dave")
      (by decide) (by decide)⟩

/-- C5 counterexample: a solo run (no peers).  Carol misses 3 questions at
cost 10 with nobody else in the run; instead of reporting a NoPeersForSplit
error and skipping the charge, the decision logic silently files a ledger
call whose only share is Carol owing the full charge of 30, with no paying
side. -/
theorem soloRun_counterexample :
    peersOf [carolUser] carolUser = []
    ∧ decideUser 10 [carolUser] carolUser (emptyRecord "carol")
        = .charged ⟨30, some 9, [⟨some 7, 0, 30⟩]⟩ := by
  constructor
  · decide
  · have hpeers : peersOf [carolUser] carolUser = [] := by decide
    unfold decideUser
    rw [if_neg (by decide), if_neg (by decide)]
    unfold chargeExpense
    rw [hpeers]
    simp only [List.map_nil, Outcome.charged.injEq, SplitwiseExpenseData.mk.injEq]
    refine ⟨?_, rfl, ?_⟩
    · show ((numMissedQuestions carolUser (emptyRecord "carol") : Int) : Rat) * 10 = 30
      norm_num [numMissedQuestions, emptyRecord, UserSubmissions.total_questions,
        carolUser]
    · show [UserShare.mk carolUser.splitwise_id 0
          (((numMissedQuestions carolUser (emptyRecord "carol") : Int) : Rat) * 10)]
        = [UserShare.mk (some 7) 0 30]
      norm_num [numMissedQuestions, emptyRecord, UserSubmissions.total_questions,
        carolUser]

/-- C5 amended: for a user with positive shortfall and a truthy billing
identity the charge equals shortfall times cost-per-question; the shortfall
user owes the full charge and pays none of it, and every peer pays exactly
charge / peer_count and owes nothing.  When the peer list is empty no error
is reported: the expense is still filed, its only share being the owed line
(the per-peer division sits inside the loop over peers and is never
evaluated). -/
theorem peerSplit (cpq : Rat) (allUsers : List User) (u : User)
    (subs : UserSubmissions) (hmiss : 0 < numMissedQuestions u subs)
    (hid : pyTruthy u.splitwise_id = true) :
    ∃ e, decideUser cpq allUsers u subs = .charged e
      ∧ e.cost = (numMissedQuestions u subs : Rat) * cpq
      ∧ e.users = ⟨u.splitwise_id, 0, e.cost⟩ ::
          (peersOf allUsers u).map
            (fun o => ⟨o.splitwise_id,
              e.cost / ((peersOf allUsers u).length : Rat), 0⟩)
      ∧ (peersOf allUsers u = []
          → e.users = [⟨u.splitwise_id, 0, e.cost⟩]) := by
  refine ⟨chargeExpense cpq allUsers u subs, ?_, rfl, rfl, ?_⟩
  · unfold decideUser
    rw [if_neg (not_le.mpr hmiss), if_neg (by simp [hid])]
  · intro hempty
    show (chargeExpense cpq allUsers u subs).users = _
    unfold chargeExpense
    simp [hempty]

/-- C5 witness: Carol misses 3 questions at cost 10 with Bob as her single
peer, instantiating the amended theorem. -/
theorem peerSplit_witness :
    (0 < numMissedQuestions carolUser (emptyRecord "carol")
      ∧ pyTruthy carolUser.splitwise_id = true)
    ∧ ∃ e, decideUser 10 [carolUser, bobUser] carolUser (emptyRecord "carol")
          = .charged e
        ∧ e.cost = (numMissedQuestions carolUser (emptyRecord "carol") : Rat) * 10
        ∧ e.users = ⟨carolUser.splitwise_id, 0, e.cost⟩ ::
            (peersOf [carolUser, bobUser] carolUser).map
              (fun o => ⟨o.splitwise_id,
                e.cost / ((peersOf [carolUser, bobUser] carolUser).length : Rat),
                0⟩)
        ∧ (peersOf [carolUser, bobUser] carolUser = []
            → e.users = [⟨carolUser.splitwise_id, 0, e.cost⟩]) :=
  ⟨⟨by decide, by decide⟩,
    peerSplit 10 [carolUser, bobUser] carolUser (emptyRecord "carol")
      (by decide) (by decide)⟩

/-- C7: for a user whose fetch succeeds, one loop iteration reaches exactly
one terminal outcome with the source's conditions — goal met (skip, no
ledger call), no billing identity (skip, no ledger call, the user still
appearing in the reporting output), or charged (one ledger call) — and the
user's record is appended to the reporting accumulator in every case. -/
theorem oneTerminalOutcome (fetch : String → Except SourceError UserSubmissions)
    (cpq : Rat) (allUsers : List User) (u : User) (rest : List User)
    (recs : List UserSubmissions) (exps : List SplitwiseExpenseData)
    (subs : UserSubmissions) (hfetch : fetch u.leetcode_id = .ok subs) :
    (decideUser cpq allUsers u subs = .goalMet
        ↔ numMissedQuestions u subs ≤ 0)
    ∧ (decideUser cpq allUsers u subs = .noBillingIdentity
        ↔ (0 < numMissedQuestions u subs ∧ pyTruthy u.splitwise_id = false))
    ∧ ((∃ e, decideUser cpq allUsers u subs = .charged e)
        ↔ (0 < numMissedQuestions u subs ∧ pyTruthy u.splitwise_id = true))
    ∧ (∀ o, decideUser cpq allUsers u subs = o
        → processUsers fetch cpq allUsers (u :: rest) recs exps
          = processUsers fetch cpq allUsers rest (recs ++ [subs])
              (exps ++ ledgerCalls o))
    ∧ ledgerCalls .goalMet = [] ∧ ledgerCalls .noBillingIdentity = []
    ∧ ∀ e, ledgerCalls (.charged e) = [e] := by
  refine ⟨decideUser_goalMet_iff cpq allUsers u subs,
    decideUser_noBilling_iff cpq allUsers u subs,
    decideUser_charged_iff cpq allUsers u subs, ?_, rfl, rfl, fun e => rfl⟩
  intro o ho
  rw [← ho, processUsers_cons, hfetch]

/-- C7 witness: Bob's fetch succeeds with an empty record; the iteration
appends his record and the ledger calls of his (unique) outcome. -/
theorem oneTerminalOutcome_witness :
    failingFetch bobUser.leetcode_id = Except.ok (emptyRecord "bob")
    ∧ processUsers failingFetch 10 [bobUser] [bobUser] [] []
        = processUsers failingFetch 10 [bobUser] [] [emptyRecord "bob"]
            (ledgerCalls (decideUser 10 [bobUser] bobUser (emptyRecord "bob"))) := by
  have h := oneTerminalOutcome failingFetch 10 [bobUser] bobUser [] [] []
    (emptyRecord "bob") rfl
  refine ⟨rfl, ?_⟩
  have h4 := h.2.2.2.1 (decideUser 10 [bobUser] bobUser (emptyRecord "bob")) rfl
  simpa using h4

/-- C4 counterexample: Alice's fetch fails while Bob's succeeds, yet the
whole run aborts with the propagated error — no outcome is reported for
Bob and no partial results are emitted for anyone. -/
theorem failureAborts_counterexample :
    failingFetch bobUser.leetcode_id = Except.ok (emptyRecord "bob")
    ∧ holdAccountable failingFetch 10 [aliceUser, bobUser]
        = .error .sourceUnavailable := by
  exact ⟨rfl, rfl⟩

/-- C4 amended: failures are NOT per-user-scoped — if the submission fetch of
any user in the run raises, `hold_accountable` propagates the exception and
the entire run aborts, emitting no results for any user (neither those
already processed nor those not yet reached). -/
theorem failureAborts (fetch : String → Except SourceError UserSubmissions)
    (cpq : Rat) (allUsers rest : List User) (recs : List UserSubmissions)
    (exps : List SplitwiseExpenseData)
    (h : ∃ u ∈ rest, ∃ e, fetch u.leetcode_id = .error e) :
    ∃ e, processUsers fetch cpq allUsers rest recs exps = .error e := by
  induction rest generalizing recs exps with
  | nil =>
    obtain ⟨u, hu, _⟩ := h
    exact absurd hu (List.not_mem_nil u)
  | cons v vs ih =>
    obtain ⟨u, hu, e, he⟩ := h
    cases hfv : fetch v.leetcode_id with
    | error e2 =>
      refine ⟨e2, ?_⟩
      rw [processUsers_cons, hfv]
    | ok subs =>
      rcases List.mem_cons.mp hu with h1 | h1
      · subst h1
        rw [he] at hfv
        exact absurd hfv (by simp)
      · obtain ⟨e3, he3⟩ := ih (recs ++ [subs])
          (exps ++ ledgerCalls (decideUser cpq allUsers v subs)) ⟨u, h1, e, he⟩
        refine ⟨e3, ?_⟩
        rw [processUsers_cons, hfv]
        exact he3

/-- C4 witness: the amended theorem instantiated on the Alice/Bob run where
Alice's fetch raises. -/
theorem failureAborts_witness :
    (∃ u ∈ [aliceUser, bobUser], ∃ e,
      failingFetch u.leetcode_id = Except.error e)
    ∧ ∃ e, processUsers failingFetch 10 [aliceUser, bobUser]
        [aliceUser, bobUser] [] [] = .error e :=
  ⟨⟨aliceUser, by decide, .sourceUnavailable, rfl⟩,
    failureAborts failingFetch 10 [aliceUser, bobUser] [aliceUser, bobUser] [] []
      ⟨aliceUser, by decide, .sourceUnavailable, rfl⟩⟩

end LeetcodeAccountability
